import Mathlib

/-!
Verification of the product-annotator workflow (targetapp.py).

The program fetches a product record from an HTTP API, stores it in session
state, projects display fields out of it via a static key mapping (with
special cases for `Price` and `Main Image`), and exports the required fields
as a JSON document via json.dumps(..., indent=4).

Modelling conventions used throughout:
  * JSON-compatible Python values are embedded as the inductive `Value`;
    a Python dict is an association list with unique keys, in insertion
    order; `Value.num s` represents a Python int/float whose `str()`/
    `json.dumps` rendering is the literal `s` (the program never computes
    with numbers, it only looks them up and stringifies them).
  * Code that can raise an exception is embedded with `Option`: a result
    of `none` means the Python code raises (e.g. calling `.get` on a value
    that is not a dict raises AttributeError).
  * Streamlit widget plumbing is out of scope; the sidebar fetch button and
    the export button handlers are embedded as pure state-transition
    functions over their session-state inputs.
-/

namespace TargetApp

/-- JSON-compatible Python values (the shape of API responses).
`num s` carries the decimal literal exactly as Python's `str()` renders the
number, matching how the program only ever stringifies numeric data. -/
inductive Value where
  | str (s : String)
  | num (s : String)
  | bool (b : Bool)
  | null
  | arr (vs : List Value)
  | obj (kvs : List (String × Value))

/-- A RawProduct is the (possibly empty) dict held in
`st.session_state.product_data`: string keys to JSON values, in insertion
order, keys unique. -/
def RawProduct : Type := List (String × Value)

instance : Inhabited RawProduct := ⟨([] : List (String × Value))⟩

/-- Python `d.get(k)` on a dict represented as an association list. -/
def dictGet (kvs : List (String × Value)) (k : String) : Option Value :=
  (kvs.find? (fun p => p.1 == k)).map (fun p => p.2)

/-- Python `v.get(k, default)` on an arbitrary value: succeeds only when `v`
is a dict; on any other value `.get` does not exist and the call raises
AttributeError, embedded as `none`. -/
def pyGet (v : Value) (k : String) (default : Value) : Option Value :=
  match v with
  | .obj kvs => some ((dictGet kvs k).getD default)
  | _ => none

/-- The backslash character (used when rendering and escaping strings). -/
def bsC : Char := Char.ofNat 92

/-- The double-quote character. -/
def quoteC : Char := Char.ofNat 34

/-- The single-quote character. -/
def squoteC : Char := Char.ofNat 39

/-- Lower-case hexadecimal digit for `n < 16`. -/
def hexDigitChar (n : Nat) : Char :=
  if n < 10 then Char.ofNat (48 + n) else Char.ofNat (87 + n)

/-- One character of a Python `repr` of a string, for a given quote
character: backslash and the quote are escaped, as are the usual control
characters (other control characters become a `\xNN` escape). -/
def pyReprChar (q : Char) (c : Char) : List Char :=
  if c = bsC then [bsC, bsC]
  else if c = q then [bsC, q]
  else if c = '\n' then [bsC, 'n']
  else if c = '\r' then [bsC, 'r']
  else if c = '\t' then [bsC, 't']
  else if c.toNat < 32 || c.toNat = 127 then
    [bsC, 'x', hexDigitChar (c.toNat / 16), hexDigitChar (c.toNat % 16)]
  else [c]

/-- Python `repr` of a string: single-quoted, unless the string contains a
single quote and no double quote, in which case double quotes are used. -/
def pyReprStr (s : String) : String :=
  let q := if s.data.contains squoteC && !(s.data.contains quoteC)
           then quoteC else squoteC
  ⟨q :: (s.data.flatMap (pyReprChar q)) ++ [q]⟩

mutual

/-- Python `repr` of a JSON-compatible value. -/
def pyRepr : Value → String
  | .str s => pyReprStr s
  | .num s => s
  | .bool true => "True"
  | .bool false => "False"
  | .null => "None"
  | .arr vs => ⟨'[' :: (pyReprElems vs).data ++ [']']⟩
  | .obj kvs => ⟨Char.ofNat 123 :: (pyReprItems kvs).data ++ [Char.ofNat 125]⟩

/-- Comma-separated `repr`s of list elements. -/
def pyReprElems : List Value → String
  | [] => ""
  | [v] => pyRepr v
  | v :: vs => pyRepr v ++ ", " ++ pyReprElems vs

/-- Comma-separated `repr`s of dict items. -/
def pyReprItems : List (String × Value) → String
  | [] => ""
  | [(k, v)] => pyReprStr k ++ ": " ++ pyRepr v
  | (k, v) :: kvs => pyReprStr k ++ ": " ++ pyRepr v ++ ", " ++ pyReprItems kvs

end

/-- Python `str()` of a JSON-compatible value, as used by f-string
interpolation and by `", ".join([str(x) for x in value])`: identical to
`repr` except on strings, which render without quotes. -/
def pyStr : Value → String
  | .str s => s
  | v => pyRepr v

/-- The static display-name → API-key table (`key_mapping` in the source).
`Price` and `Main Image` are intentionally absent: they are special-cased. -/
def key_mapping : List (String × String) :=
  [("TCIN", "tcin"),
   ("Product Title", "title"),
   ("Brand", "brand"),
   ("UPC", "upc"),
   ("DPCI", "dpci"),
   ("Description", "description"),
   ("Ingredients", "ingredients"),
   ("Feature Bullets", "feature_bullets"),
   ("Specifications", "specifications_flat"),
   ("Weight", "weight"),
   ("Dimensions", "dimensions"),
   ("Total Ratings", "ratings_total")]

/-- `key_mapping.get(field)` — lookup in the static table. -/
def keyMappingLookup (field : String) : Option String :=
  (key_mapping.find? (fun p => p.1 == field)).map (fun p => p.2)

/-- The Price projection shared by the details tab and the export handler:

    price_obj = data.get("buybox_winner", \x7b\x7d).get("price", \x7b\x7d)
    currency = price_obj.get("currency_symbol", "")
    value = price_obj.get("value", "N/A")
    ... f"\x7bcurrency\x7d\x7bvalue\x7d"

`data` is always a dict, so the first `.get` cannot raise, but the chained
`.get("price", ...)` and the two lookups on `price_obj` raise when applied
to a non-dict value; the raise is embedded as `none`. -/
def projectPrice (data : RawProduct) : Option String := do
  let bw := (dictGet data "buybox_winner").getD (Value.obj [])
  let priceObj ← pyGet bw "price" (Value.obj [])
  let currency ← pyGet priceObj "currency_symbol" (Value.str "")
  let value ← pyGet priceObj "value" (Value.str "N/A")
  pure (pyStr currency ++ pyStr value)

/-- One field of the export handler's projection loop
(`draw_annotations_tab`, the body of `for field in required_fields`):
`Price` is formatted from `buybox_winner.price`; `Main Image` takes
`main_image.link` when `main_image` is a dict and "N/A" otherwise; every
other field resolves through `key_mapping` (falling back to the display
name) with default "N/A", and list values are joined with ", ".
`none` means the Python loop raises at this field. -/
def projectFieldExport (data : RawProduct) (field : String) : Option Value :=
  if field == "Price" then
    (projectPrice data).map Value.str
  else if field == "Main Image" then
    let mainImg := (dictGet data "main_image").getD (Value.obj [])
    match mainImg with
    | .obj kvs => some ((dictGet kvs "link").getD (Value.str "N/A"))
    | _ => some (Value.str "N/A")
  else
    let apiField := (keyMappingLookup field).getD field
    let value := (dictGet data apiField).getD (Value.str "N/A")
    match value with
    | .arr xs => some (Value.str (String.intercalate ", " (xs.map pyStr)))
    | v => some v

/-- One rendered line of the Product Details tab
(`draw_product_details_tab`, identical in both layout branches):
`Main Image` is skipped (`some none`), `Price` and the generic fields render
as a `**field:** value` markdown line; a result of `none` means the Python
loop raises at this field. -/
def displayFieldLine (data : RawProduct) (field : String) :
    Option (Option String) :=
  if field == "Main Image" then
    some none
  else if field == "Price" then
    (projectPrice data).map (fun s => some ("**" ++ field ++ ":** " ++ s))
  else
    let apiField := (keyMappingLookup field).getD field
    let value := (dictGet data apiField).getD (Value.str "N/A")
    let rendered :=
      match value with
      | .arr xs => String.intercalate ", " (xs.map pyStr)
      | v => pyStr v
    some (some ("**" ++ field ++ ":** " ++ rendered))

/-- A row of `st.session_state.field_status`. -/
structure FieldSpec where
  field : String
  required : Bool
deriving DecidableEq, Repr

/-- The fourteen built-in catalog rows installed by `init_session_state`. -/
def initialFieldStatus : List FieldSpec :=
  [⟨"TCIN", true⟩,
   ⟨"Product Title", true⟩,
   ⟨"Brand", true⟩,
   ⟨"Price", true⟩,
   ⟨"Main Image", true⟩,
   ⟨"UPC", false⟩,
   ⟨"DPCI", false⟩,
   ⟨"Description", false⟩,
   ⟨"Ingredients", false⟩,
   ⟨"Feature Bullets", false⟩,
   ⟨"Specifications", false⟩,
   ⟨"Weight", false⟩,
   ⟨"Dimensions", false⟩,
   ⟨"Total Ratings", false⟩]

/-- `[row["field"] for row in edited_data if row["required"]]`. -/
def requiredFields (rows : List FieldSpec) : List String :=
  (rows.filter (fun r => r.required)).map (fun r => r.field)

/-- `final_data[field] = value` — Python dict assignment: overwrite in place
when the key exists, append otherwise. -/
def dictInsert (d : List (String × Value)) (k : String) (v : Value) :
    List (String × Value) :=
  if d.any (fun p => p.1 == k) then
    d.map (fun p => if p.1 == k then (k, v) else p)
  else d ++ [(k, v)]

/-- The export handler's projection loop: builds `final_data` by projecting
each required field in order; `none` when projection raises at some field. -/
def buildFinalData (data : RawProduct) :
    List String → List (String × Value) → Option (List (String × Value))
  | [], acc => some acc
  | f :: fs, acc => do
      let v ← projectFieldExport data f
      buildFinalData data fs (dictInsert acc f v)

/-! ## JSON serialization (`json.dumps(final_data, indent=4)`) and a
reference JSON parser used to state the export/parse round-trip.

The serializer is written at the character-list level and mirrors CPython's
`json.dumps` with `indent=4` (and hence item separator "," and key
separator ": "): a non-empty container opens with its bracket, puts each
entry on its own line indented by 4·depth spaces, and closes on a line
indented by the enclosing depth. Strings are escaped as `json.dumps` does
(quote, backslash, and the control characters; the short escapes
\b \t \n \f \r are used when available and `\u00xx` otherwise). Non-ASCII
characters are left verbatim (the `ensure_ascii=False` form); the default
`\uXXXX` form parses back to the identical string, so every property stated
about the emitted document is insensitive to this choice. -/

/-- Indentation emitted before an entry at nesting depth `d`. -/
def indentChars (d : Nat) : List Char := '\n' :: List.replicate (4 * d) ' '

/-- The `json.dumps` escape of one string character. -/
def escChar (c : Char) : List Char :=
  if c = quoteC then [bsC, quoteC]
  else if c = bsC then [bsC, bsC]
  else if c = '\n' then [bsC, 'n']
  else if c = '\r' then [bsC, 'r']
  else if c = '\t' then [bsC, 't']
  else if c.toNat = 8 then [bsC, 'b']
  else if c.toNat = 12 then [bsC, 'f']
  else if c.toNat < 32 then
    [bsC, 'u', '0', '0', hexDigitChar (c.toNat / 16), hexDigitChar (c.toNat % 16)]
  else [c]

/-- The `json.dumps` escape of a string body. -/
def escChars : List Char → List Char
  | [] => []
  | c :: cs => escChar c ++ escChars cs

/-- A JSON string literal: quote, escaped body, quote. -/
def quoteChars (s : String) : List Char :=
  quoteC :: escChars s.data ++ [quoteC]

mutual

/-- `json.dumps(v, indent=4)` at nesting depth `d`, as a character list. -/
def dumpV : Nat → Value → List Char
  | _, .str s => quoteChars s
  | _, .num s => s.data
  | _, .bool true => ['t', 'r', 'u', 'e']
  | _, .bool false => ['f', 'a', 'l', 's', 'e']
  | _, .null => ['n', 'u', 'l', 'l']
  | _, .arr [] => ['[', ']']
  | d, .arr (v :: vs) =>
      '[' :: indentChars (d + 1) ++ dumpElems (d + 1) (v :: vs) ++
        indentChars d ++ [']']
  | _, .obj [] => [Char.ofNat 123, Char.ofNat 125]
  | d, .obj (kv :: kvs) =>
      Char.ofNat 123 :: indentChars (d + 1) ++ dumpItems (d + 1) (kv :: kvs) ++
        indentChars d ++ [Char.ofNat 125]

/-- Array entries, one per line, separated by `,` + newline + indent. -/
def dumpElems : Nat → List Value → List Char
  | _, [] => []
  | d, [v] => dumpV d v
  | d, v :: v2 :: vs =>
      dumpV d v ++ ',' :: indentChars d ++ dumpElems d (v2 :: vs)

/-- Object entries `"key": value`, separated by `,` + newline + indent. -/
def dumpItems : Nat → List (String × Value) → List Char
  | _, [] => []
  | d, [(k, v)] => quoteChars k ++ ':' :: ' ' :: dumpV d v
  | d, (k, v) :: kv2 :: kvs =>
      quoteChars k ++ ':' :: ' ' :: dumpV d v ++ ',' :: indentChars d ++
        dumpItems d (kv2 :: kvs)

end

/-- `json.dumps(v, indent=4)` as a string. -/
def jsonDumps (v : Value) : String := ⟨dumpV 0 v⟩

/-- JSON whitespace. -/
def wsChar (c : Char) : Bool := c == ' ' || c == '\t' || c == '\n' || c == '\r'

/-- Skip leading whitespace. -/
def skipWs : List Char → List Char
  | [] => []
  | c :: cs => if wsChar c then skipWs cs else c :: cs

/-- Characters a JSON number token may contain. -/
def numChar (c : Char) : Bool :=
  c.isDigit || c == '-' || c == '+' || c == '.' || c == 'e' || c == 'E'

/-- Read the maximal run of number characters. -/
def readNum : List Char → List Char × List Char
  | [] => ([], [])
  | c :: cs =>
      if numChar c then
        let p := readNum cs
        (c :: p.1, p.2)
      else ([], c :: cs)

/-- Value of one hexadecimal digit. -/
def hexVal (c : Char) : Option Nat :=
  if c.isDigit then some (c.toNat - 48)
  else if 97 ≤ c.toNat && c.toNat ≤ 102 then some (c.toNat - 87)
  else if 65 ≤ c.toNat && c.toNat ≤ 70 then some (c.toNat - 55)
  else none

/-- Unescape a one-character JSON escape. -/
def unescMap (c : Char) : Option Char :=
  if c = quoteC then some quoteC
  else if c = bsC then some bsC
  else if c = '/' then some '/'
  else if c = 'n' then some '\n'
  else if c = 'r' then some '\r'
  else if c = 't' then some '\t'
  else if c = 'b' then some (Char.ofNat 8)
  else if c = 'f' then some (Char.ofNat 12)
  else none

/-- Attach a decoded character to a successful string-body parse. -/
def consStr (c : Char) :
    Option (List Char × List Char) → Option (List Char × List Char)
  | some (s, r) => some (c :: s, r)
  | none => none

mutual

/-- Parse the body of a JSON string literal (the opening quote already
consumed): returns the decoded characters and the input after the closing
quote. Fuel-indexed; one unit of fuel is spent per input character
consumed, so any fuel exceeding the input length is sufficient. -/
def parseStringBody : Nat → List Char → Option (List Char × List Char)
  | 0, _ => none
  | _ + 1, [] => none
  | f + 1, c :: cs =>
      if c = quoteC then some ([], cs)
      else if c = bsC then parseEscape f cs
      else consStr c (parseStringBody f cs)

/-- Decode the escape after a backslash. -/
def parseEscape : Nat → List Char → Option (List Char × List Char)
  | 0, _ => none
  | _ + 1, [] => none
  | f + 1, e :: cs =>
      if e = 'u' then parseHex4 f cs
      else
        match unescMap e with
        | some decoded => consStr decoded (parseStringBody f cs)
        | none => none

/-- Decode the four hex digits of a `\uXXXX` escape. -/
def parseHex4 : Nat → List Char → Option (List Char × List Char)
  | 0, _ => none
  | f + 1, h1 :: h2 :: h3 :: h4 :: rest =>
      match hexVal h1, hexVal h2, hexVal h3, hexVal h4 with
      | some a, some b, some x, some y =>
          consStr (Char.ofNat (((a * 16 + b) * 16 + x) * 16 + y))
            (parseStringBody f rest)
      | _, _, _, _ => none
  | _ + 1, _ => none

end

/-- Parse a fixed literal continuation (`rue`, `alse`, `ull`): succeeds when
it is a prefix of the input, yielding the given value. -/
def parseLit (lit : List Char) (v : Value) (r : List Char) :
    Option (Value × List Char) :=
  if lit.isPrefixOf r then some (v, r.drop lit.length) else none

mutual

/-- Parse one JSON value (fuel-indexed recursive descent).  The mutual
group terminates by the lexicographic measure (fuel, stage): entering a
value or a member list consumes one unit of fuel, and the stages of one
member strictly descend. -/
def parseVal : Nat → List Char → Option (Value × List Char)
  | 0, _ => none
  | f + 1, cs => parseValCore f (skipWs cs)
termination_by fuel _ => (fuel, 0)

/-- Dispatch on the first significant character. -/
def parseValCore (f : Nat) : List Char → Option (Value × List Char)
  | [] => none
  | c :: r =>
      if c == '-' || c.isDigit then
        let p := readNum (c :: r)
        some (Value.num ⟨p.1⟩, p.2)
      else if c = Char.ofNat 123 then parseObjBody f (skipWs r)
      else if c = '[' then parseArrBody f (skipWs r)
      else if c = quoteC then
        (parseStringBody f r).map (fun p => (Value.str ⟨p.1⟩, p.2))
      else if c = 't' then parseLit ['r', 'u', 'e'] (Value.bool true) r
      else if c = 'f' then parseLit ['a', 'l', 's', 'e'] (Value.bool false) r
      else if c = 'n' then parseLit ['u', 'l', 'l'] Value.null r
      else none
termination_by _ => (f, 8)

/-- Parse the inside of an object, after the opening brace and whitespace. -/
def parseObjBody (f : Nat) : List Char → Option (Value × List Char)
  | [] => none
  | c :: r =>
      if c = Char.ofNat 125 then some (Value.obj [], r)
      else (parseMembers f (c :: r)).map (fun p => (Value.obj p.1, p.2))
termination_by _ => (f, 7)

/-- Parse the inside of an array, after `[` and whitespace. -/
def parseArrBody (f : Nat) : List Char → Option (Value × List Char)
  | [] => none
  | c :: r =>
      if c = ']' then some (Value.arr [], r)
      else (parseElems f (c :: r)).map (fun p => (Value.arr p.1, p.2))
termination_by _ => (f, 7)

/-- Parse one or more `"key": value` members. -/
def parseMembers : Nat → List Char → Option (List (String × Value) × List Char)
  | 0, _ => none
  | f + 1, cs => parseMemberKey f (skipWs cs)
termination_by fuel _ => (fuel, 1)

/-- A member must begin with a quoted key. -/
def parseMemberKey (f : Nat) : List Char → Option (List (String × Value) × List Char)
  | [] => none
  | c :: r =>
      if c = quoteC then parseMemberTail f (parseStringBody f r) else none
termination_by _ => (f, 6)

/-- Continue after the key string. -/
def parseMemberTail (f : Nat) :
    Option (List Char × List Char) → Option (List (String × Value) × List Char)
  | none => none
  | some (k, r1) => parseMemberColon f (String.mk k) (skipWs r1)
termination_by _ => (f, 5)

/-- Expect the `:` key separator, then the member value. -/
def parseMemberColon (f : Nat) (k : String) :
    List Char → Option (List (String × Value) × List Char)
  | [] => none
  | c :: r => if c = ':' then parseMemberValue f k (parseVal f r) else none
termination_by _ => (f, 4)

/-- Continue after the member value. -/
def parseMemberValue (f : Nat) (k : String) :
    Option (Value × List Char) → Option (List (String × Value) × List Char)
  | none => none
  | some (v, r3) => parseMemberSep f k v (skipWs r3)
termination_by _ => (f, 3)

/-- Expect `,` (more members) or the closing brace. -/
def parseMemberSep (f : Nat) (k : String) (v : Value) :
    List Char → Option (List (String × Value) × List Char)
  | [] => none
  | c :: r =>
      if c = ',' then (parseMembers f r).map (fun p => ((k, v) :: p.1, p.2))
      else if c = Char.ofNat 125 then some ([(k, v)], r)
      else none
termination_by _ => (f, 2)

/-- Parse one or more array elements. -/
def parseElems : Nat → List Char → Option (List Value × List Char)
  | 0, _ => none
  | f + 1, cs => parseElemTail f (parseVal f cs)
termination_by fuel _ => (fuel, 1)

/-- Continue after an array element. -/
def parseElemTail (f : Nat) :
    Option (Value × List Char) → Option (List Value × List Char)
  | none => none
  | some (v, r1) => parseElemSep f v (skipWs r1)
termination_by _ => (f, 3)

/-- Expect `,` (more elements) or `]`. -/
def parseElemSep (f : Nat) (v : Value) :
    List Char → Option (List Value × List Char)
  | [] => none
  | c :: r =>
      if c = ',' then (parseElems f r).map (fun p => (v :: p.1, p.2))
      else if c = ']' then some ([v], r)
      else none
termination_by _ => (f, 2)

end

/-- `json.loads`: parse a complete document, rejecting trailing garbage. -/
def jsonLoads (s : String) : Option Value :=
  match parseVal (s.data.length + 1) s.data with
  | some (v, rest) => if (skipWs rest).isEmpty then some v else none
  | none => none

/-- The response unwrapping at the end of `fetch_product_data_from_api`:
if the parsed body is a dict with a `product` key, unwrap to that value;
if the (possibly unwrapped) result is not a dict, warn and return the empty
dict. Returns the resulting RawProduct and whether the format warning was
emitted. -/
def extractProduct (v : Value) : RawProduct × Bool :=
  let v1 :=
    match v with
    | .obj kvs =>
        match dictGet kvs "product" with
        | some p => p
        | none => Value.obj kvs
    | _ => v
  match v1 with
  | .obj kvs => ((kvs : List (String × Value)), false)
  | _ => (([] : List (String × Value)), true)

/-- Outcome of pressing the sidebar "Fetch Data" button. -/
structure SidebarResult where
  networkCalled : Bool
  errorMsg : Option String
  warningMsg : Option String
  newProductData : RawProduct
deriving Inhabited

/-- The empty-credential diagnostic. -/
def missingKeyError : String := "Please provide an API key!"

/-- The failed-fetch diagnostic. -/
def noDataWarning : String :=
  "No product data fetched. Check the TCIN or API availability."

/-- The "Fetch Data" click handler (`draw_sidebar`): with an empty API key
it only emits an error; otherwise it calls the fetcher (modelled as the
oracle `fetch`, which already returns the empty dict on any fetch failure)
and stores the result in `product_data` only when the returned dict is
non-empty (`if product_data:`). -/
def sidebarFetchClick (apiKey tcin : String) (prior : RawProduct)
    (fetch : String → String → RawProduct) : SidebarResult :=
  if apiKey.isEmpty then
    ⟨false, some missingKeyError, none, prior⟩
  else
    let product_data := fetch apiKey tcin
    if product_data.isEmpty then
      ⟨true, none, some noDataWarning, prior⟩
    else
      ⟨true, none, none, product_data⟩

/-- The empty-export diagnostic. -/
def emptyExportWarning : String :=
  "No product data to export. Please fetch data first."

/-- Outcome of pressing "Export Required Fields as JSON"; the handler never
assigns any session-state key, so the session fields it saw are returned
unchanged. -/
structure ExportOutcome where
  jsonOutput : Option String
  warningMsg : Option String
  productDataAfter : RawProduct
  fieldStatusAfter : List FieldSpec

/-- Serialization of the export document, `json.dumps(final_data, indent=4)`,
is defined below (`jsonDumps`); forward-declared here as the character-level
renderer applied to `Value.obj final_data`. -/
def exportJsonOf (doc : List (String × Value)) : String := jsonDumps (Value.obj doc)

/-- The export click handler (`draw_annotations_tab`, the body of
`if st.button("Export Required Fields as JSON")`): warns and produces no
output when no data is stored; otherwise projects the required fields in
catalog order into `final_data` and renders it with
`json.dumps(final_data, indent=4)`. `none` means the handler raises. -/
def exportButtonClick (data : RawProduct) (rows : List FieldSpec) :
    Option ExportOutcome :=
  if data.isEmpty then
    some ⟨none, some emptyExportWarning, data, rows⟩
  else do
    let doc ← buildFinalData data (requiredFields rows) []
    pure ⟨some (exportJsonOf doc), none, data, rows⟩

/-- `st.session_state` before/after `init_session_state`: each field is
`none` when the key is absent from the session. -/
structure SessionState where
  product_data : Option RawProduct
  api_key : Option String
  field_status : Option (List FieldSpec)

/-- `init_session_state`: each key is set to its default only when absent
(`if "..." not in st.session_state`). -/
def init_session_state (s : SessionState) : SessionState :=
  { product_data :=
      match s.product_data with
      | none => some ([] : List (String × Value))
      | some v => some v
    api_key :=
      match s.api_key with
      | none => some ""
      | some k => some k
    field_status :=
      match s.field_status with
      | none => some initialFieldStatus
      | some fs => some fs }

/-- State of the `@st.cache(allow_output_mutation=True)` memoization of
`fetch_product_data_from_api`. Streamlit's cache with
`allow_output_mutation=True` stores the computed object and hands the very
same object back to every caller, with no copy and no hash check; the heap
is made explicit so that aliasing is expressible: `entries` maps an
argument pair `(api_key, tcin)` to the address of the cached dict, and
`heap` maps addresses to dict contents. -/
structure CacheState where
  entries : List ((String × String) × Nat)
  heap : List RawProduct

/-- One call of the memoized fetcher: on a hit, return the address of the
stored object (the caller aliases the cache); on a miss, run the fetch,
store the result at a fresh address and return that address. -/
def cachedFetch (s : CacheState) (key : String × String)
    (compute : RawProduct) : Nat × CacheState :=
  match s.entries.find? (fun e => e.1.1 == key.1 && e.1.2 == key.2) with
  | some e => (e.2, s)
  | none =>
      (s.heap.length,
       ⟨s.entries ++ [(key, s.heap.length)], s.heap ++ [compute]⟩)

/-- Dereference an address (a caller reading the dict it was handed). -/
def readObj (s : CacheState) (a : Nat) : RawProduct :=
  s.heap.getD a ([] : List (String × Value))

/-- In-place mutation of the dict at an address (a caller mutating the
object it was handed back). -/
def writeObj (s : CacheState) (a : Nat) (v : RawProduct) : CacheState :=
  { s with heap := s.heap.set a v }

/-! ## Auxiliary predicates used to state the theorems -/

/-- A numeric literal as Python renders one: non-empty, starting with a
digit or minus sign, built from number-token characters. Every number that
actually arrives through `json.loads` satisfies this (it is the `repr` of a
Python int/float). -/
def numLitOk (s : String) : Bool :=
  match s.data with
  | [] => false
  | c :: cs => (c == '-' || c.isDigit) && (c :: cs).all numChar

mutual

/-- Well-formedness of an embedded JSON value: every numeric literal in it
is a plausible Python number rendering (see `numLitOk`). -/
def wfVal : Value → Bool
  | .num s => numLitOk s
  | .arr vs => wfElems vs
  | .obj kvs => wfItems kvs
  | _ => true

/-- All elements well-formed. -/
def wfElems : List Value → Bool
  | [] => true
  | v :: vs => wfVal v && wfElems vs

/-- All values of a dict well-formed. -/
def wfItems : List (String × Value) → Bool
  | [] => true
  | (_, v) :: kvs => wfVal v && wfItems kvs

end

/-- A continuation in front of which a number token stops: empty input or a
non-number character. -/
def numBoundary : List Char → Bool
  | [] => true
  | c :: _ => !numChar c

mutual

/-- Fuel sufficient for `parseVal` to parse the serialization of `v`. -/
def fnV : Value → Nat
  | .str s => (escChars s.data).length + 3
  | .obj [] => 3
  | .obj (kv :: kvs) => 3 + fnM (kv :: kvs)
  | .arr [] => 3
  | .arr (v :: vs) => 3 + fnE (v :: vs)
  | _ => 2

/-- Fuel sufficient for `parseMembers` on the serialized members. -/
def fnM : List (String × Value) → Nat
  | [] => 0
  | (k, v) :: kvs => 2 + (escChars k.data).length + fnV v + fnM kvs

/-- Fuel sufficient for `parseElems` on the serialized elements. -/
def fnE : List Value → Nat
  | [] => 0
  | v :: vs => 1 + fnV v + fnE vs

end

/-- The upstream value a field's export projection reads, when it reads one
directly: the `main_image.link` entry for `Main Image`, the `key_mapping`
(or fallback) entry for generic fields; `Price` never passes a value
through unchanged (it always formats a string). -/
def upstreamValue (data : RawProduct) (field : String) : Option Value :=
  if field == "Price" then none
  else if field == "Main Image" then
    match (dictGet data "main_image").getD (Value.obj []) with
    | .obj kvs => dictGet kvs "link"
    | _ => none
  else dictGet data ((keyMappingLookup field).getD field)

/-- The simulated upstream response of the spec's concrete example. -/
def sampleResponse : Value :=
  Value.obj [("product", Value.obj
    [("tcin", Value.str "89603872"),
     ("title", Value.str "Widget"),
     ("main_image", Value.obj [("link", Value.str "http://img/x.jpg")]),
     ("buybox_winner", Value.obj
       [("price", Value.obj
         [("currency_symbol", Value.str "$"),
          ("value", Value.num "9.99")])])])]

/-- The RawProduct obtained by unwrapping `sampleResponse`. -/
def sampleProduct : RawProduct :=
  [("tcin", Value.str "89603872"),
   ("title", Value.str "Widget"),
   ("main_image", Value.obj [("link", Value.str "http://img/x.jpg")]),
   ("buybox_winner", Value.obj
     [("price", Value.obj
       [("currency_symbol", Value.str "$"),
        ("value", Value.num "9.99")])])]

/-- A RawProduct whose `buybox_winner` key is bound to a non-mapping value:
the input on which the Price projection raises. -/
def badBuyboxProduct : RawProduct := [("buybox_winner", Value.num "5")]

/-! ## Generic helper lemmas -/

theorem find?_append_none {α} (p : α → Bool) (l1 l2 : List α)
    (h : l1.find? p = none) : (l1 ++ l2).find? p = l2.find? p := by
  induction l1 with
  | nil => rfl
  | cons a l ih =>
      cases hpa : p a with
      | true => rw [List.find?_cons_of_pos _ hpa] at h; cases h
      | false =>
          rw [List.find?_cons_of_neg _ (by simp [hpa])] at h
          rw [List.cons_append, List.find?_cons_of_neg _ (by simp [hpa])]
          exact ih h

theorem set_append_length {α} (l : List α) (a v : α) :
    (l ++ [a]).set l.length v = l ++ [v] := by
  induction l with
  | nil => rfl
  | cons b l ih => simp [List.set, ih]

theorem getD_append_length {α} (l : List α) (a d : α) :
    (l ++ [a]).getD l.length d = a := by
  induction l with
  | nil => rfl
  | cons b l ih => simp [List.getD] at ih ⊢

theorem isEmpty_false_of_ne_nil {α} {l : List α} (h : l ≠ []) :
    l.isEmpty = false := by
  cases l with
  | nil => exact absurd rfl h
  | cons a l => rfl

/-! ## Whitespace and character-class lemmas -/

theorem skipWs_cons_not_ws {c : Char} (h : wsChar c = false) (cs : List Char) :
    skipWs (c :: cs) = c :: cs := by
  simp [skipWs, h]

theorem skipWs_append_ws {l : List Char} (cs : List Char)
    (h : l.all wsChar = true) : skipWs (l ++ cs) = skipWs cs := by
  induction l with
  | nil => rfl
  | cons c l ih =>
      simp only [List.all_cons, Bool.and_eq_true] at h
      simp [skipWs, h.1, ih h.2]

theorem replicate_space_all_ws : ∀ n, (List.replicate n ' ').all wsChar = true := by
  intro n
  induction n with
  | zero => rfl
  | succ n ih =>
      rw [List.replicate_succ, List.all_cons, ih]
      rfl

theorem indentChars_all_ws (d : Nat) : (indentChars d).all wsChar = true := by
  show (('\n' :: List.replicate (4 * d) ' ').all wsChar) = true
  rw [List.all_cons, replicate_space_all_ws]
  rfl

theorem numChar_not_ws {c : Char} (h : numChar c = true) : wsChar c = false := by
  cases hw : wsChar c with
  | false => rfl
  | true =>
      exfalso
      simp only [wsChar, Bool.or_eq_true, beq_iff_eq] at hw
      rcases hw with ((rfl | rfl) | rfl) | rfl <;> simp [numChar] at h

/-! ## Absorption of leading whitespace by the parser -/

theorem parseVal_leading_ws {l : List Char} (h : l.all wsChar = true)
    (fuel : Nat) (cs : List Char) :
    parseVal fuel (l ++ cs) = parseVal fuel cs := by
  cases fuel with
  | zero => rw [parseVal, parseVal]
  | succ f => rw [parseVal, parseVal, skipWs_append_ws _ h]

theorem parseMembers_leading_ws {l : List Char} (h : l.all wsChar = true)
    (fuel : Nat) (cs : List Char) :
    parseMembers fuel (l ++ cs) = parseMembers fuel cs := by
  cases fuel with
  | zero => rw [parseMembers, parseMembers]
  | succ f => rw [parseMembers, parseMembers, skipWs_append_ws _ h]

theorem parseElems_leading_ws {l : List Char} (h : l.all wsChar = true)
    (fuel : Nat) (cs : List Char) :
    parseElems fuel (l ++ cs) = parseElems fuel cs := by
  cases fuel with
  | zero => rw [parseElems, parseElems]
  | succ f => rw [parseElems, parseElems, parseVal_leading_ws h]

/-! ## String-escape round trip -/

theorem hexVal_hexDigitChar : ∀ n, n < 16 → hexVal (hexDigitChar n) = some n := by
  decide

theorem parseStringBody_short_escape {c e : Char} (hu : e ≠ 'u')
    (hm : unescMap e = some c) (f : Nat) (cs : List Char) :
    parseStringBody (f + 2) (bsC :: e :: cs) =
      consStr c (parseStringBody f cs) := by
  show parseStringBody (f + 1 + 1) (bsC :: e :: cs) = _
  rw [parseStringBody, if_neg (by decide), if_pos rfl, parseEscape,
    if_neg hu, hm]

theorem parseStringBody_escChars :
    ∀ l f rest, (escChars l).length + 1 ≤ f →
      parseStringBody f (escChars l ++ quoteC :: rest) = some (l, rest) := by
  intro l
  induction l with
  | nil =>
      intro f rest hf
      obtain ⟨g, rfl⟩ : ∃ g, f = g + 1 := ⟨f - 1, by omega⟩
      show parseStringBody (g + 1) (quoteC :: rest) = some ([], rest)
      rw [parseStringBody, if_pos rfl]
  | cons c l ih =>
      intro f rest hf
      rw [escChars, List.length_append] at hf
      rw [escChars, List.append_assoc]
      rw [escChar] at hf ⊢
      by_cases h1 : c = quoteC
      · subst h1
        rw [if_pos rfl] at hf ⊢
        simp only [List.length_cons, List.length_nil] at hf
        obtain ⟨g, rfl⟩ : ∃ g, f = g + 2 := ⟨f - 2, by omega⟩
        rw [List.cons_append, List.cons_append, List.nil_append,
          @parseStringBody_short_escape quoteC quoteC (by decide) (by decide) g,
          ih g rest (by omega)]
        rfl
      · rw [if_neg h1] at hf ⊢
        by_cases h2 : c = bsC
        · subst h2
          rw [if_pos rfl] at hf ⊢
          simp only [List.length_cons, List.length_nil] at hf
          obtain ⟨g, rfl⟩ : ∃ g, f = g + 2 := ⟨f - 2, by omega⟩
          rw [List.cons_append, List.cons_append, List.nil_append,
            @parseStringBody_short_escape bsC bsC (by decide) (by decide) g,
            ih g rest (by omega)]
          rfl
        · rw [if_neg h2] at hf ⊢
          by_cases h3 : c = '\n'
          · subst h3
            rw [if_pos rfl] at hf ⊢
            simp only [List.length_cons, List.length_nil] at hf
            obtain ⟨g, rfl⟩ : ∃ g, f = g + 2 := ⟨f - 2, by omega⟩
            rw [List.cons_append, List.cons_append, List.nil_append,
              @parseStringBody_short_escape '\n' 'n' (by decide) (by decide) g,
              ih g rest (by omega)]
            rfl
          · rw [if_neg h3] at hf ⊢
            by_cases h4 : c = '\r'
            · subst h4
              rw [if_pos rfl] at hf ⊢
              simp only [List.length_cons, List.length_nil] at hf
              obtain ⟨g, rfl⟩ : ∃ g, f = g + 2 := ⟨f - 2, by omega⟩
              rw [List.cons_append, List.cons_append, List.nil_append,
                @parseStringBody_short_escape '\r' 'r' (by decide) (by decide) g,
                ih g rest (by omega)]
              rfl
            · rw [if_neg h4] at hf ⊢
              by_cases h5 : c = '\t'
              · subst h5
                rw [if_pos rfl] at hf ⊢
                simp only [List.length_cons, List.length_nil] at hf
                obtain ⟨g, rfl⟩ : ∃ g, f = g + 2 := ⟨f - 2, by omega⟩
                rw [List.cons_append, List.cons_append, List.nil_append,
                  @parseStringBody_short_escape '\t' 't' (by decide) (by decide) g,
                  ih g rest (by omega)]
                rfl
              · rw [if_neg h5] at hf ⊢
                by_cases h6 : c.toNat = 8
                · rw [if_pos h6] at hf ⊢
                  simp only [List.length_cons, List.length_nil] at hf
                  obtain ⟨g, rfl⟩ : ∃ g, f = g + 2 := ⟨f - 2, by omega⟩
                  rw [List.cons_append, List.cons_append, List.nil_append,
                    @parseStringBody_short_escape (Char.ofNat 8) 'b' (by decide) (by decide) g,
                    ih g rest (by omega)]
                  have hc : Char.ofNat 8 = c := by
                    rw [← h6, Char.ofNat_toNat]
                  rw [consStr, hc]
                · rw [if_neg h6] at hf ⊢
                  by_cases h7 : c.toNat = 12
                  · rw [if_pos h7] at hf ⊢
                    simp only [List.length_cons, List.length_nil] at hf
                    obtain ⟨g, rfl⟩ : ∃ g, f = g + 2 := ⟨f - 2, by omega⟩
                    rw [List.cons_append, List.cons_append, List.nil_append,
                      @parseStringBody_short_escape (Char.ofNat 12) 'f' (by decide) (by decide) g,
                      ih g rest (by omega)]
                    have hc : Char.ofNat 12 = c := by
                      rw [← h7, Char.ofNat_toNat]
                    rw [consStr, hc]
                  · rw [if_neg h7] at hf ⊢
                    by_cases h8 : c.toNat < 32
                    · rw [if_pos h8] at hf ⊢
                      simp only [List.length_cons, List.length_nil] at hf
                      obtain ⟨g, rfl⟩ : ∃ g, f = g + 3 := ⟨f - 3, by omega⟩
                      simp only [List.cons_append, List.nil_append]
                      show parseStringBody (g + 2 + 1) _ = _
                      rw [parseStringBody, if_neg (by decide), if_pos rfl]
                      show parseEscape (g + 1 + 1) _ = _
                      rw [parseEscape, if_pos rfl]
                      show parseHex4 (g + 1) _ = _
                      rw [parseHex4]
                      rw [show hexVal '0' = some 0 from rfl,
                        hexVal_hexDigitChar _ (by omega),
                        hexVal_hexDigitChar _ (by omega)]
                      show consStr
                          (Char.ofNat
                            (((0 * 16 + 0) * 16 + c.toNat / 16) * 16 + c.toNat % 16))
                          (parseStringBody g (escChars l ++ quoteC :: rest)) =
                          some (c :: l, rest)
                      have harith :
                          ((0 * 16 + 0) * 16 + c.toNat / 16) * 16 + c.toNat % 16 =
                            c.toNat := by omega
                      rw [harith, Char.ofNat_toNat, ih g rest (by omega), consStr]
                    · rw [if_neg h8] at hf ⊢
                      simp only [List.length_cons, List.length_nil] at hf
                      obtain ⟨g, rfl⟩ : ∃ g, f = g + 1 := ⟨f - 1, by omega⟩
                      rw [List.cons_append, List.nil_append, parseStringBody,
                        if_neg h1, if_neg h2, ih g rest (by omega), consStr]

/-! ## Number-token round trip -/

theorem readNum_exact :
    ∀ l rest, l.all numChar = true → numBoundary rest = true →
      readNum (l ++ rest) = (l, rest) := by
  intro l
  induction l with
  | nil =>
      intro rest _ hb
      cases rest with
      | nil => rfl
      | cons c r =>
          show readNum (c :: r) = ([], c :: r)
          rw [numBoundary, Bool.not_eq_true'] at hb
          rw [readNum, if_neg (by rw [hb]; exact Bool.false_ne_true)]
  | cons c l ih =>
      intro rest hall hb
      rw [List.all_cons, Bool.and_eq_true] at hall
      show readNum (c :: (l ++ rest)) = (c :: l, rest)
      rw [readNum, if_pos hall.1, ih rest hall.2 hb]

/-! ## Heads and sizes of serialized values -/

theorem fnV_ge_two : ∀ v, 2 ≤ fnV v := by
  intro v
  cases v with
  | str s => show 2 ≤ (escChars s.data).length + 3; omega
  | num s => exact Nat.le.refl
  | bool b => exact Nat.le.refl
  | null => exact Nat.le.refl
  | arr vs =>
      cases vs with
      | nil => show 2 ≤ 3; omega
      | cons v vs => show 2 ≤ 3 + fnE (v :: vs); omega
  | obj kvs =>
      cases kvs with
      | nil => show 2 ≤ 3; omega
      | cons kv kvs => show 2 ≤ 3 + fnM (kv :: kvs); omega

theorem dumpV_head (d : Nat) (v : Value) (hwf : wfVal v = true) :
    ∃ c r, dumpV d v = c :: r ∧ wsChar c = false ∧ c ≠ ']' ∧
      c ≠ Char.ofNat 125 := by
  cases v with
  | str s =>
      exact ⟨quoteC, escChars s.data ++ [quoteC],
        by rw [dumpV, quoteChars]; rfl, by decide, by decide, by decide⟩
  | num s =>
      rw [wfVal, numLitOk] at hwf
      cases hs : s.data with
      | nil => rw [hs] at hwf; cases hwf
      | cons c cs =>
          rw [hs, Bool.and_eq_true, List.all_cons, Bool.and_eq_true] at hwf
          have hnum : numChar c = true := hwf.2.1
          refine ⟨c, cs, by rw [dumpV, hs], numChar_not_ws hnum, ?_, ?_⟩
          · intro heq
            rw [heq] at hnum
            cases hnum
          · intro heq
            rw [heq] at hnum
            cases hnum
  | bool b =>
      cases b with
      | true => exact ⟨'t', _, by rw [dumpV], by decide, by decide, by decide⟩
      | false => exact ⟨'f', _, by rw [dumpV], by decide, by decide, by decide⟩
  | null => exact ⟨'n', _, by rw [dumpV], by decide, by decide, by decide⟩
  | arr vs =>
      cases vs with
      | nil => exact ⟨'[', [']'], by rw [dumpV], by decide, by decide, by decide⟩
      | cons v vs =>
          exact ⟨'[',
            indentChars (d + 1) ++ dumpElems (d + 1) (v :: vs) ++
              indentChars d ++ [']'],
            by rw [dumpV]; rfl, by decide, by decide, by decide⟩
  | obj kvs =>
      cases kvs with
      | nil =>
          exact ⟨Char.ofNat 123, [Char.ofNat 125], by rw [dumpV], by decide,
            by decide, by decide⟩
      | cons kv kvs =>
          exact ⟨Char.ofNat 123,
            indentChars (d + 1) ++ dumpItems (d + 1) (kv :: kvs) ++
              indentChars d ++ [Char.ofNat 125],
            by rw [dumpV]; rfl, by decide, by decide, by decide⟩

theorem string_mk_data (s : String) : String.mk s.data = s := rfl

theorem dumpElems_head (d : Nat) (v : Value) (vs : List Value)
    (hwf : wfVal v = true) :
    ∃ c r, dumpElems d (v :: vs) = c :: r ∧ wsChar c = false ∧ c ≠ ']' ∧
      c ≠ Char.ofNat 125 := by
  obtain ⟨c, r0, hh, hws, hb1, hb2⟩ := dumpV_head d v hwf
  cases vs with
  | nil => exact ⟨c, r0, by rw [dumpElems, hh], hws, hb1, hb2⟩
  | cons v2 vs =>
      exact ⟨c, r0 ++ ',' :: indentChars d ++ dumpElems d (v2 :: vs),
        by rw [dumpElems, hh]; rfl, hws, hb1, hb2⟩

theorem dumpItems_head (d : Nat) (k : String) (v : Value)
    (kvs : List (String × Value)) :
    ∃ r, dumpItems d ((k, v) :: kvs) = quoteC :: r := by
  cases kvs with
  | nil =>
      exact ⟨(escChars k.data ++ [quoteC]) ++ (':' :: ' ' :: dumpV d v),
        by rw [dumpItems, quoteChars]; rfl⟩
  | cons kv2 kvs =>
      exact ⟨(((escChars k.data ++ [quoteC]) ++ (':' :: ' ' :: dumpV d v)) ++
          (',' :: indentChars d)) ++ dumpItems d (kv2 :: kvs),
        by rw [dumpItems, quoteChars]; rfl⟩

theorem numBoundary_indent (e : Nat) (X : List Char) :
    numBoundary (indentChars e ++ X) = true := by
  rw [show indentChars e ++ X = '\n' :: (List.replicate (4 * e) ' ' ++ X)
    from by simp [indentChars]]
  rw [numBoundary]
  decide

theorem numBoundary_comma (X : List Char) :
    numBoundary (',' :: X) = true := by
  rw [numBoundary]
  decide

/-- The parser inverts the serializer: a serialized value followed by a
suitable continuation parses back to exactly that value, and likewise for
serialized member and element lists followed by their closing bracket. -/
theorem parse_dump : ∀ fuel : Nat,
    (∀ v d rest, wfVal v = true → fnV v ≤ fuel → numBoundary rest = true →
      parseVal fuel (dumpV d v ++ rest) = some (v, rest)) ∧
    (∀ kvs d e rest, kvs ≠ [] → wfItems kvs = true → fnM kvs ≤ fuel →
      parseMembers fuel
        (dumpItems d kvs ++ (indentChars e ++ Char.ofNat 125 :: rest)) =
        some (kvs, rest)) ∧
    (∀ vs d e rest, vs ≠ [] → wfElems vs = true → fnE vs ≤ fuel →
      parseElems fuel (dumpElems d vs ++ (indentChars e ++ ']' :: rest)) =
        some (vs, rest)) := by
  intro fuel
  induction fuel using Nat.strong_induction_on with
  | _ fuel ih =>
  refine ⟨?_, ?_, ?_⟩
  · -- values
    intro v d rest hwf hfn hnb
    have h2 := fnV_ge_two v
    obtain ⟨a, rfl⟩ : ∃ a, fuel = a + 1 := ⟨fuel - 1, by omega⟩
    cases v with
    | str s =>
        have hfn' : (escChars s.data).length + 3 ≤ a + 1 := by
          rw [fnV] at hfn; exact hfn
        rw [show dumpV d (Value.str s) ++ rest =
            quoteC :: (escChars s.data ++ (quoteC :: rest)) from by
          simp [dumpV, quoteChars]]
        rw [parseVal, skipWs_cons_not_ws (by decide)]
        rw [parseValCore, if_neg (by decide), if_neg (by decide),
          if_neg (by decide), if_pos rfl,
          parseStringBody_escChars s.data a rest (by omega)]
        rfl
    | num s =>
        rw [wfVal, numLitOk] at hwf
        cases hs : s.data with
        | nil => rw [hs] at hwf; exact Bool.noConfusion hwf
        | cons c0 cs =>
            rw [hs] at hwf
            have hwf' : ((c0 == '-' || c0.isDigit) &&
                (c0 :: cs).all numChar) = true := hwf
            rw [Bool.and_eq_true] at hwf'
            have hnum0 : numChar c0 = true := by
              have := hwf'.2
              rw [List.all_cons, Bool.and_eq_true] at this
              exact this.1
            rw [show dumpV d (Value.num s) ++ rest = c0 :: (cs ++ rest) from by
              rw [dumpV, hs]; rfl]
            rw [parseVal, skipWs_cons_not_ws (numChar_not_ws hnum0)]
            rw [parseValCore, if_pos hwf'.1]
            rw [show c0 :: (cs ++ rest) = (c0 :: cs) ++ rest from rfl,
              readNum_exact _ _ hwf'.2 hnb]
            show some (Value.num ⟨c0 :: cs⟩, rest) = some (Value.num s, rest)
            rw [← hs, string_mk_data]
    | bool b =>
        cases b with
        | true =>
            rw [show dumpV d (Value.bool true) ++ rest =
                't' :: ('r' :: 'u' :: 'e' :: rest) from by rw [dumpV]; rfl]
            rw [parseVal, skipWs_cons_not_ws (by decide)]
            rw [parseValCore, if_neg (by decide), if_neg (by decide),
              if_neg (by decide), if_neg (by decide), if_pos rfl]
            simp [parseLit, List.isPrefixOf]
        | false =>
            rw [show dumpV d (Value.bool false) ++ rest =
                'f' :: ('a' :: 'l' :: 's' :: 'e' :: rest) from by
              rw [dumpV]; rfl]
            rw [parseVal, skipWs_cons_not_ws (by decide)]
            rw [parseValCore, if_neg (by decide), if_neg (by decide),
              if_neg (by decide), if_neg (by decide), if_neg (by decide),
              if_pos rfl]
            simp [parseLit, List.isPrefixOf]
    | null =>
        rw [show dumpV d Value.null ++ rest =
            'n' :: ('u' :: 'l' :: 'l' :: rest) from by rw [dumpV]; rfl]
        rw [parseVal, skipWs_cons_not_ws (by decide)]
        rw [parseValCore, if_neg (by decide), if_neg (by decide),
          if_neg (by decide), if_neg (by decide), if_neg (by decide),
          if_neg (by decide), if_pos rfl]
        simp [parseLit, List.isPrefixOf]
    | arr vs =>
        cases vs with
        | nil =>
            rw [show dumpV d (Value.arr []) ++ rest = '[' :: (']' :: rest)
              from by rw [dumpV]; rfl]
            rw [parseVal, skipWs_cons_not_ws (by decide)]
            rw [parseValCore, if_neg (by decide), if_neg (by decide),
              if_pos rfl]
            rw [skipWs_cons_not_ws (by decide)]
            rw [parseArrBody, if_pos rfl]
        | cons v tail =>
            have hfn' : 3 + fnE (v :: tail) ≤ a + 1 := by
              rw [fnV] at hfn; exact hfn
            have hwfE : wfElems (v :: tail) = true := by
              rw [wfVal] at hwf; exact hwf
            have hwfv : wfVal v = true := by
              have := hwfE
              rw [wfElems, Bool.and_eq_true] at this
              exact this.1
            rw [show dumpV d (Value.arr (v :: tail)) ++ rest =
                '[' :: (indentChars (d + 1) ++ (dumpElems (d + 1) (v :: tail) ++
                  (indentChars d ++ ']' :: rest))) from by
              rw [dumpV]; simp [List.append_assoc]]
            rw [parseVal, skipWs_cons_not_ws (by decide)]
            rw [parseValCore, if_neg (by decide), if_neg (by decide),
              if_pos rfl]
            rw [skipWs_append_ws _ (indentChars_all_ws (d + 1))]
            obtain ⟨c0, r0, hh, hws, hb1, _⟩ := dumpElems_head (d + 1) v tail hwfv
            rw [hh, List.cons_append, skipWs_cons_not_ws hws]
            rw [parseArrBody, if_neg hb1]
            rw [← List.cons_append, ← hh]
            rw [(ih a (by omega)).2.2 (v :: tail) (d + 1) d rest (by simp)
              hwfE (by omega)]
            rfl
    | obj kvs =>
        cases kvs with
        | nil =>
            rw [show dumpV d (Value.obj []) ++ rest =
                Char.ofNat 123 :: (Char.ofNat 125 :: rest) from by
              rw [dumpV]; rfl]
            rw [parseVal, skipWs_cons_not_ws (by decide)]
            rw [parseValCore, if_neg (by decide), if_pos rfl]
            rw [skipWs_cons_not_ws (by decide)]
            rw [parseObjBody, if_pos rfl]
        | cons kv tail =>
            obtain ⟨k, v⟩ := kv
            have hfn' : 3 + fnM ((k, v) :: tail) ≤ a + 1 := by
              rw [fnV] at hfn; exact hfn
            have hwfI : wfItems ((k, v) :: tail) = true := by
              rw [wfVal] at hwf; exact hwf
            rw [show dumpV d (Value.obj ((k, v) :: tail)) ++ rest =
                Char.ofNat 123 :: (indentChars (d + 1) ++
                  (dumpItems (d + 1) ((k, v) :: tail) ++
                    (indentChars d ++ Char.ofNat 125 :: rest))) from by
              rw [dumpV]; simp [List.append_assoc]]
            rw [parseVal, skipWs_cons_not_ws (by decide)]
            rw [parseValCore, if_neg (by decide), if_pos rfl]
            rw [skipWs_append_ws _ (indentChars_all_ws (d + 1))]
            obtain ⟨r0, hh⟩ := dumpItems_head (d + 1) k v tail
            rw [hh, List.cons_append, skipWs_cons_not_ws (by decide)]
            rw [parseObjBody, if_neg (by decide)]
            rw [← List.cons_append, ← hh]
            rw [(ih a (by omega)).2.1 ((k, v) :: tail) (d + 1) d rest (by simp)
              hwfI (by omega)]
            rfl
  · -- members
    intro kvs d e rest hne hwfI hfm
    cases kvs with
    | nil => exact absurd rfl hne
    | cons kv tail =>
        obtain ⟨k, v⟩ := kv
        rw [fnM] at hfm
        rw [wfItems, Bool.and_eq_true] at hwfI
        have h2 := fnV_ge_two v
        obtain ⟨j, rfl⟩ : ∃ j, fuel = j + 1 := ⟨fuel - 1, by omega⟩
        cases tail with
        | nil =>
            rw [show dumpItems d [(k, v)] ++
                (indentChars e ++ Char.ofNat 125 :: rest) =
                quoteC :: (escChars k.data ++ (quoteC :: (':' :: (' ' ::
                  (dumpV d v ++ (indentChars e ++ Char.ofNat 125 :: rest))))))
              from by rw [dumpItems, quoteChars]; simp [List.append_assoc]]
            rw [parseMembers, skipWs_cons_not_ws (by decide)]
            rw [parseMemberKey, if_pos rfl]
            rw [parseStringBody_escChars k.data j _ (by omega)]
            rw [parseMemberTail, string_mk_data]
            rw [skipWs_cons_not_ws (by decide)]
            rw [parseMemberColon, if_pos rfl]
            rw [show (' ' :: (dumpV d v ++
                (indentChars e ++ Char.ofNat 125 :: rest))) =
                [' '] ++ (dumpV d v ++
                  (indentChars e ++ Char.ofNat 125 :: rest)) from rfl]
            rw [parseVal_leading_ws (by decide)]
            rw [(ih j (by omega)).1 v d _ hwfI.1 (by omega)
              (numBoundary_indent e _)]
            rw [parseMemberValue]
            rw [skipWs_append_ws _ (indentChars_all_ws e),
              skipWs_cons_not_ws (by decide)]
            rw [parseMemberSep, if_neg (by decide), if_pos rfl]
        | cons kv2 tail2 =>
            rw [show dumpItems d ((k, v) :: kv2 :: tail2) ++
                (indentChars e ++ Char.ofNat 125 :: rest) =
                quoteC :: (escChars k.data ++ (quoteC :: (':' :: (' ' ::
                  (dumpV d v ++ (',' :: (indentChars d ++
                    (dumpItems d (kv2 :: tail2) ++
                      (indentChars e ++ Char.ofNat 125 :: rest)))))))))
              from by rw [dumpItems, quoteChars]; simp [List.append_assoc]]
            rw [parseMembers, skipWs_cons_not_ws (by decide)]
            rw [parseMemberKey, if_pos rfl]
            rw [parseStringBody_escChars k.data j _ (by omega)]
            rw [parseMemberTail, string_mk_data]
            rw [skipWs_cons_not_ws (by decide)]
            rw [parseMemberColon, if_pos rfl]
            rw [show (' ' :: (dumpV d v ++ (',' :: (indentChars d ++
                (dumpItems d (kv2 :: tail2) ++
                  (indentChars e ++ Char.ofNat 125 :: rest)))))) =
                [' '] ++ (dumpV d v ++ (',' :: (indentChars d ++
                  (dumpItems d (kv2 :: tail2) ++
                    (indentChars e ++ Char.ofNat 125 :: rest))))) from rfl]
            rw [parseVal_leading_ws (by decide)]
            rw [(ih j (by omega)).1 v d _ hwfI.1 (by omega)
              (numBoundary_comma _)]
            rw [parseMemberValue]
            rw [skipWs_cons_not_ws (by decide)]
            rw [parseMemberSep, if_pos rfl]
            rw [parseMembers_leading_ws (indentChars_all_ws d)]
            rw [(ih j (by omega)).2.1 (kv2 :: tail2) d e rest (by simp)
              hwfI.2 (by omega)]
            rfl
  · -- elements
    intro vs d e rest hne hwfE hfe
    cases vs with
    | nil => exact absurd rfl hne
    | cons v tail =>
        rw [fnE] at hfe
        rw [wfElems, Bool.and_eq_true] at hwfE
        have h2 := fnV_ge_two v
        obtain ⟨j, rfl⟩ : ∃ j, fuel = j + 1 := ⟨fuel - 1, by omega⟩
        cases tail with
        | nil =>
            rw [show dumpElems d [v] ++ (indentChars e ++ ']' :: rest) =
                dumpV d v ++ (indentChars e ++ ']' :: rest) from by
              rw [dumpElems]]
            rw [parseElems]
            rw [(ih j (by omega)).1 v d _ hwfE.1 (by omega)
              (numBoundary_indent e _)]
            rw [parseElemTail]
            rw [skipWs_append_ws _ (indentChars_all_ws e),
              skipWs_cons_not_ws (by decide)]
            rw [parseElemSep, if_neg (by decide), if_pos rfl]
        | cons v2 tail2 =>
            rw [show dumpElems d (v :: v2 :: tail2) ++
                (indentChars e ++ ']' :: rest) =
                dumpV d v ++ (',' :: (indentChars d ++
                  (dumpElems d (v2 :: tail2) ++ (indentChars e ++ ']' :: rest))))
              from by rw [dumpElems]; simp [List.append_assoc]]
            rw [parseElems]
            rw [(ih j (by omega)).1 v d _ hwfE.1 (by omega)
              (numBoundary_comma _)]
            rw [parseElemTail]
            rw [skipWs_cons_not_ws (by decide)]
            rw [parseElemSep, if_pos rfl]
            rw [parseElems_leading_ws (indentChars_all_ws d)]
            rw [(ih j (by omega)).2.2 (v2 :: tail2) d e rest (by simp)
              hwfE.2 (by omega)]
            rfl

/-! ## The serialized form is long enough for the fuel the parser needs -/

theorem indentChars_length (d : Nat) : (indentChars d).length = 4 * d + 1 := by
  simp [indentChars]

theorem quoteChars_length (s : String) :
    (quoteChars s).length = (escChars s.data).length + 2 := by
  rw [quoteChars]
  simp

theorem fn_le_len : ∀ n : Nat,
    (∀ v d, sizeOf v < n → wfVal v = true →
      fnV v ≤ (dumpV d v).length + 1) ∧
    (∀ L d, sizeOf L < n → wfItems L = true →
      fnM L ≤ (dumpItems d L).length + 2) ∧
    (∀ L d, sizeOf L < n → wfElems L = true →
      fnE L ≤ (dumpElems d L).length + 2) := by
  intro n
  induction n using Nat.strong_induction_on with
  | _ n ih =>
  refine ⟨?_, ?_, ?_⟩
  · intro v d hs hwf
    cases v with
    | str s =>
        rw [fnV, show dumpV d (Value.str s) = quoteChars s from by rw [dumpV]]
        rw [quoteChars_length]
    | num s =>
        rw [wfVal, numLitOk] at hwf
        cases hcs : s.data with
        | nil => rw [hcs] at hwf; exact Bool.noConfusion hwf
        | cons c0 cs =>
            show 2 ≤ (dumpV d (Value.num s)).length + 1
            rw [show dumpV d (Value.num s) = s.data from by rw [dumpV], hcs]
            simp
    | bool b =>
        cases b with
        | true =>
            rw [show dumpV d (Value.bool true) = ['t', 'r', 'u', 'e'] from by
              rw [dumpV]]
            show 2 ≤ 4 + 1
            omega
        | false =>
            rw [show dumpV d (Value.bool false) = ['f', 'a', 'l', 's', 'e']
              from by rw [dumpV]]
            show 2 ≤ 5 + 1
            omega
    | null =>
        rw [show dumpV d Value.null = ['n', 'u', 'l', 'l'] from by rw [dumpV]]
        show 2 ≤ 4 + 1
        omega
    | arr vs =>
        cases vs with
        | nil =>
            rw [show dumpV d (Value.arr []) = ['[', ']'] from by rw [dumpV]]
            show 3 ≤ 2 + 1
            omega
        | cons v tail =>
            have hE : fnE (v :: tail) ≤ (dumpElems (d + 1) (v :: tail)).length + 2 := by
              refine (ih (sizeOf (Value.arr (v :: tail))) hs).2.2 (v :: tail)
                (d + 1) ?_ ?_
              · simp
              · rw [wfVal] at hwf; exact hwf
            rw [fnV, show dumpV d (Value.arr (v :: tail)) =
                '[' :: indentChars (d + 1) ++ dumpElems (d + 1) (v :: tail) ++
                  indentChars d ++ [']'] from by rw [dumpV]]
            simp only [List.cons_append, List.length_cons, List.length_append,
              indentChars_length, List.length_singleton]
            omega
    | obj kvs =>
        cases kvs with
        | nil =>
            rw [show dumpV d (Value.obj []) =
                [Char.ofNat 123, Char.ofNat 125] from by rw [dumpV]]
            show 3 ≤ 2 + 1
            omega
        | cons kv tail =>
            obtain ⟨k, v⟩ := kv
            have hM : fnM ((k, v) :: tail) ≤
                (dumpItems (d + 1) ((k, v) :: tail)).length + 2 := by
              refine (ih (sizeOf (Value.obj ((k, v) :: tail))) hs).2.1
                ((k, v) :: tail) (d + 1) ?_ ?_
              · simp
              · rw [wfVal] at hwf; exact hwf
            rw [fnV, show dumpV d (Value.obj ((k, v) :: tail)) =
                Char.ofNat 123 :: indentChars (d + 1) ++
                  dumpItems (d + 1) ((k, v) :: tail) ++ indentChars d ++
                  [Char.ofNat 125] from by rw [dumpV]]
            simp only [List.cons_append, List.length_cons, List.length_append,
              indentChars_length, List.length_singleton]
            omega
  · intro L d hs hwfI
    cases L with
    | nil => exact Nat.le_add_left 0 _
    | cons kv tail =>
        obtain ⟨k, v⟩ := kv
        rw [wfItems, Bool.and_eq_true] at hwfI
        have hV : fnV v ≤ (dumpV d v).length + 1 := by
          refine (ih (sizeOf ((k, v) :: tail)) hs).1 v d ?_ hwfI.1
          simp
          omega
        cases tail with
        | nil =>
            have h0 : fnM ([] : List (String × Value)) = 0 := rfl
            rw [fnM, show dumpItems d [(k, v)] =
                quoteChars k ++ ':' :: ' ' :: dumpV d v from by rw [dumpItems]]
            simp only [List.length_append, List.length_cons, quoteChars_length,
              h0]
            omega
        | cons kv2 tail2 =>
            have hM : fnM (kv2 :: tail2) ≤
                (dumpItems d (kv2 :: tail2)).length + 2 := by
              refine (ih (sizeOf ((k, v) :: kv2 :: tail2)) hs).2.1
                (kv2 :: tail2) d ?_ hwfI.2
              simp
            rw [fnM, show dumpItems d ((k, v) :: kv2 :: tail2) =
                quoteChars k ++ ':' :: ' ' :: dumpV d v ++ ',' ::
                  indentChars d ++ dumpItems d (kv2 :: tail2) from by
              rw [dumpItems]]
            simp only [List.length_append, List.length_cons, quoteChars_length,
              indentChars_length]
            omega
  · intro L d hs hwfE
    cases L with
    | nil => exact Nat.le_add_left 0 _
    | cons v tail =>
        rw [wfElems, Bool.and_eq_true] at hwfE
        have hV : fnV v ≤ (dumpV d v).length + 1 := by
          refine (ih (sizeOf (v :: tail)) hs).1 v d ?_ hwfE.1
          simp
          omega
        cases tail with
        | nil =>
            have h0 : fnE ([] : List Value) = 0 := rfl
            rw [fnE, show dumpElems d [v] = dumpV d v from by rw [dumpElems],
              h0]
            omega
        | cons v2 tail2 =>
            have hE : fnE (v2 :: tail2) ≤
                (dumpElems d (v2 :: tail2)).length + 2 := by
              refine (ih (sizeOf (v :: v2 :: tail2)) hs).2.2 (v2 :: tail2) d
                ?_ hwfE.2
              simp
            rw [fnE, show dumpElems d (v :: v2 :: tail2) =
                dumpV d v ++ ',' :: indentChars d ++ dumpElems d (v2 :: tail2)
              from by rw [dumpElems]]
            simp only [List.length_append, List.length_cons, indentChars_length]
            omega

/-- `json.loads` inverts `json.dumps` on well-formed values. -/
theorem jsonLoads_dumps (v : Value) (hwf : wfVal v = true) :
    jsonLoads (jsonDumps v) = some v := by
  have hlen : fnV v ≤ (dumpV 0 v).length + 1 :=
    (fn_le_len (sizeOf v + 1)).1 v 0 (Nat.lt_succ_self _) hwf
  have hparse : parseVal ((dumpV 0 v).length + 1) (dumpV 0 v ++ []) =
      some (v, []) :=
    (parse_dump ((dumpV 0 v).length + 1)).1 v 0 [] hwf hlen rfl
  rw [List.append_nil] at hparse
  show (match parseVal ((dumpV 0 v).length + 1) (dumpV 0 v) with
        | some (v, rest) => if (skipWs rest).isEmpty then some v else none
        | none => none) = some v
  rw [hparse]
  rfl

/-! ## Well-formedness of projected values -/

theorem wfItems_mem {kvs : List (String × Value)} (h : wfItems kvs = true)
    {k : String} {v : Value} (hm : (k, v) ∈ kvs) : wfVal v = true := by
  induction kvs with
  | nil => cases hm
  | cons kv tail ih =>
      obtain ⟨k', v'⟩ := kv
      rw [wfItems, Bool.and_eq_true] at h
      rcases List.mem_cons.mp hm with heq | hmem
      · cases heq; exact h.1
      · exact ih h.2 hmem

theorem dictGet_wf {kvs : List (String × Value)} (h : wfItems kvs = true)
    {k : String} {v : Value} (hd : dictGet kvs k = some v) : wfVal v = true := by
  rw [dictGet] at hd
  cases hf : kvs.find? (fun p => p.1 == k) with
  | none => rw [hf] at hd; cases hd
  | some p =>
      rw [hf] at hd
      obtain ⟨k', v'⟩ := p
      have hmem := List.mem_of_find?_eq_some hf
      have hv : v' = v := by
        have : some v' = some v := hd
        exact Option.some.inj this
      cases hv
      exact wfItems_mem h hmem

theorem wfItems_of_forall : ∀ {kvs : List (String × Value)},
    (∀ p ∈ kvs, wfVal p.2 = true) → wfItems kvs = true := by
  intro kvs
  induction kvs with
  | nil => intro _; rfl
  | cons kv tail ih =>
      intro h
      obtain ⟨k, v⟩ := kv
      rw [wfItems, Bool.and_eq_true]
      exact ⟨h (k, v) (by simp), ih (fun p hp => h p (by simp [hp]))⟩

theorem wf_projectFieldExport {data : RawProduct} (hwf : wfItems data = true)
    {f : String} {v : Value} (h : projectFieldExport data f = some v) :
    wfVal v = true := by
  rw [projectFieldExport] at h
  split at h
  · -- Price: always a formatted string
    rcases Option.map_eq_some'.mp h with ⟨s, _, rfl⟩
    rfl
  · split at h
    · -- Main Image
      simp only [] at h
      split at h
      · -- main_image is a dict
        rename_i kvs heq
        have hobj : wfVal (Value.obj kvs) = true := by
          cases hg : dictGet data "main_image" with
          | none => rw [hg] at heq; cases heq; rfl
          | some w =>
              rw [hg] at heq
              have : w = Value.obj kvs := heq
              cases this
              exact dictGet_wf hwf hg
        rw [wfVal] at hobj
        cases hl : dictGet kvs "link" with
        | none =>
            rw [hl] at h
            cases h
            rfl
        | some w =>
            rw [hl] at h
            have : w = v := Option.some.inj h
            cases this
            exact dictGet_wf hobj hl
      · cases h; rfl
    · -- generic field
      simp only [] at h
      split at h
      · cases h; rfl
      · cases hg : dictGet data ((keyMappingLookup f).getD f) with
        | none =>
            rw [hg] at h
            have hv : Value.str "N/A" = v := Option.some.inj h
            cases hv
            rfl
        | some w =>
            rw [hg] at h
            have hv : w = v := Option.some.inj h
            cases hv
            exact dictGet_wf hwf hg

/-! ## Keys and values of the export document -/

theorem dictInsert_fresh {acc : List (String × Value)} {k : String}
    (h : acc.any (fun p => p.1 == k) = false) (v : Value) :
    dictInsert acc k v = acc ++ [(k, v)] := by
  rw [dictInsert, h]
  simp

theorem dictInsert_mem {acc : List (String × Value)} {k : String} {v : Value}
    {p : String × Value} (h : p ∈ dictInsert acc k v) :
    p ∈ acc ∨ p = (k, v) := by
  rw [dictInsert] at h
  split at h
  · rcases List.mem_map.mp h with ⟨q, hq, heq⟩
    by_cases hqk : (q.1 == k) = true
    · rw [if_pos hqk] at heq
      right
      exact heq.symm
    · rw [if_neg hqk] at heq
      left
      rw [← heq]
      exact hq
  · rcases List.mem_append.mp h with h1 | h2
    · exact Or.inl h1
    · right
      simpa using h2

theorem buildFinalData_keys (data : RawProduct) :
    ∀ (fields : List String) (acc doc : List (String × Value)),
      fields.Nodup →
      (∀ f ∈ fields, acc.any (fun p => p.1 == f) = false) →
      buildFinalData data fields acc = some doc →
      doc.map Prod.fst = acc.map Prod.fst ++ fields := by
  intro fields
  induction fields with
  | nil =>
      intro acc doc _ _ h
      rw [buildFinalData] at h
      cases h
      simp
  | cons f fs ih =>
      intro acc doc hnd hfresh h
      rw [buildFinalData] at h
      cases hp : projectFieldExport data f with
      | none => rw [hp] at h; cases h
      | some v =>
          rw [hp] at h
          have h' : buildFinalData data fs (dictInsert acc f v) = some doc := h
          rw [dictInsert_fresh (hfresh f (by simp)) v] at h'
          rcases List.nodup_cons.mp hnd with ⟨hfnot, hnd'⟩
          have hfresh' : ∀ g ∈ fs, (acc ++ [(f, v)]).any
              (fun p => p.1 == g) = false := by
            intro g hg
            rw [List.any_append, Bool.or_eq_false_iff]
            refine ⟨hfresh g (List.mem_cons_of_mem _ hg), ?_⟩
            have hne : f ≠ g := fun heq => hfnot (heq ▸ hg)
            simp [hne]
          have hkeys := ih (acc ++ [(f, v)]) doc hnd' hfresh' h'
          rw [hkeys]
          simp

theorem buildFinalData_mem (data : RawProduct) :
    ∀ (fields : List String) (acc doc : List (String × Value)),
      buildFinalData data fields acc = some doc →
      ∀ p ∈ doc, p ∈ acc ∨ projectFieldExport data p.1 = some p.2 := by
  intro fields
  induction fields with
  | nil =>
      intro acc doc h p hp
      rw [buildFinalData] at h
      cases h
      exact Or.inl hp
  | cons f fs ih =>
      intro acc doc h p hp
      rw [buildFinalData] at h
      cases hpf : projectFieldExport data f with
      | none => rw [hpf] at h; cases h
      | some v =>
          rw [hpf] at h
          have h' : buildFinalData data fs (dictInsert acc f v) = some doc := h
          rcases ih (dictInsert acc f v) doc h' p hp with hin | hproj
          · rcases dictInsert_mem hin with hin2 | heq
            · exact Or.inl hin2
            · right
              rw [heq]
              exact hpf
          · exact Or.inr hproj

/-! ## Claims -/

/-- Claim C1: the spec guarantees that projecting any field terminates
without raising, with every lookup degrading to the "N/A" sentinel or an
empty string, including when keys such as buybox_winner, price or
main_image are present but bound to non-mapping values.  The code violates
this: on a RawProduct whose buybox_winner key holds the number 5, the Price
projection calls .get on a non-dict and raises AttributeError (modelled as
`none`) on both the export path and the display path, instead of degrading
to "N/A". -/
theorem price_projection_raises_on_nonmapping_buybox :
    projectFieldExport badBuyboxProduct "Price" = none ∧
    displayFieldLine badBuyboxProduct "Price" = none := ⟨rfl, rfl⟩

/-- Claim C2 counterexample: exporting the required field Total Ratings
from a RawProduct whose ratings_total entry is the number 100 places the
raw number, not a string, in the export document. -/
theorem export_value_not_string :
    buildFinalData [("ratings_total", Value.num "100")] ["Total Ratings"] [] =
      some [("Total Ratings", Value.num "100")] ∧
    ∀ s, Value.num "100" ≠ Value.str s :=
  ⟨rfl, fun _ h => Value.noConfusion h⟩

/-- Claim C2 (amended): a value placed in the export document is a string
for Price always; every other exported value is either a string (list joins
and the "N/A" default) or exactly the upstream value at the field's source
key, passed through unchanged with its original JSON type. -/
theorem export_values_string_or_upstream (data : RawProduct) (f : String)
    (v : Value) (h : projectFieldExport data f = some v) :
    (f = "Price" → ∃ s, v = Value.str s) ∧
    ((∃ s, v = Value.str s) ∨ upstreamValue data f = some v) := by
  rw [projectFieldExport] at h
  split at h
  · rcases Option.map_eq_some'.mp h with ⟨s, _, rfl⟩
    exact ⟨fun _ => ⟨s, rfl⟩, Or.inl ⟨s, rfl⟩⟩
  · rename_i hp
    have hfp : f ≠ "Price" := by simpa using hp
    refine ⟨fun heq => absurd heq hfp, ?_⟩
    split at h
    · rename_i hm
      simp only [] at h
      split at h
      · rename_i kvs heq
        cases hl : dictGet kvs "link" with
        | none =>
            rw [hl] at h
            have hv : Value.str "N/A" = v := Option.some.inj h
            exact Or.inl ⟨"N/A", hv.symm⟩
        | some w =>
            rw [hl] at h
            have hv : w = v := Option.some.inj h
            subst hv
            right
            rw [upstreamValue, if_neg hp, if_pos hm, heq]
            show dictGet kvs "link" = some w
            exact hl
      · have hv : Value.str "N/A" = v := Option.some.inj h
        exact Or.inl ⟨"N/A", hv.symm⟩
    · rename_i hm
      simp only [] at h
      split at h
      · rename_i xs heq
        have hv : Value.str (String.intercalate ", " (xs.map pyStr)) = v :=
          Option.some.inj h
        exact Or.inl ⟨_, hv.symm⟩
      · cases hg : dictGet data ((keyMappingLookup f).getD f) with
        | none =>
            rw [hg] at h
            have hv : Value.str "N/A" = v := Option.some.inj h
            exact Or.inl ⟨"N/A", hv.symm⟩
        | some w =>
            rw [hg] at h
            have hv : w = v := Option.some.inj h
            cases hv
            right
            rw [upstreamValue, if_neg hp, if_neg hm]
            exact hg

/-- Claim C2 witness: the amended claim instantiated at a RawProduct whose
ratings_total is the number 7. -/
theorem export_values_string_or_upstream_witness :
    projectFieldExport [("ratings_total", Value.num "7")] "Total Ratings" =
      some (Value.num "7") ∧
    ((("Total Ratings" : String) = "Price" →
        ∃ s, Value.num "7" = Value.str s) ∧
      ((∃ s, Value.num "7" = Value.str s) ∨
        upstreamValue [("ratings_total", Value.num "7")] "Total Ratings" =
          some (Value.num "7"))) :=
  ⟨rfl, export_values_string_or_upstream _ _ _ rfl⟩

/-- Claim C3 counterexample: with a non-empty record stored, a fetch that
fails (the fetcher returns the empty dict) leaves the stored record in
place instead of clearing it. -/
theorem failed_fetch_keeps_previous_record :
    (sidebarFetchClick "key" "tcin" [("tcin", Value.str "old")]
      (fun _ _ => ([] : List (String × Value)))).newProductData =
      [("tcin", Value.str "old")] ∧
    ([("tcin", Value.str "old")] : RawProduct) ≠ ([] : RawProduct) :=
  ⟨rfl, fun h => List.noConfusion h⟩

/-- Claim C3 (amended): with a non-empty credential, a fetch that fails or
returns an empty record leaves the previously stored RawProduct unchanged
and emits the no-data warning; a fetch returning a non-empty record
replaces the stored RawProduct wholesale. -/
theorem sidebar_fetch_update (apiKey tcin : String) (prior : RawProduct)
    (fetch : String → String → RawProduct) (hk : apiKey.isEmpty = false) :
    (fetch apiKey tcin = [] →
      sidebarFetchClick apiKey tcin prior fetch =
        ⟨true, none, some noDataWarning, prior⟩) ∧
    (fetch apiKey tcin ≠ [] →
      sidebarFetchClick apiKey tcin prior fetch =
        ⟨true, none, none, fetch apiKey tcin⟩) := by
  constructor
  · intro hf
    simp [sidebarFetchClick, hk, hf]
  · intro hf
    simp [sidebarFetchClick, hk, isEmpty_false_of_ne_nil hf]

/-- Claim C3 witness: the amended claim instantiated with a fetcher that
returns a non-empty record. -/
theorem sidebar_fetch_update_witness :
    ("key" : String).isEmpty = false ∧
    (((fun _ _ => ([("tcin", Value.str "new")] : List (String × Value)))
        "key" "t" : RawProduct) ≠ [] →
      sidebarFetchClick "key" "t" []
        (fun _ _ => [("tcin", Value.str "new")]) =
        ⟨true, none, none, [("tcin", Value.str "new")]⟩) :=
  ⟨rfl, (sidebar_fetch_update "key" "t" []
    (fun _ _ => [("tcin", Value.str "new")]) rfl).2⟩

/-- Claim C4 counterexample: Foo is not in the key mapping and is neither
Price nor Main Image, yet projecting it from a RawProduct that happens to
contain the key Foo yields that value, not the "N/A" sentinel — unmapped
fields fall back to the display name itself as the lookup key. -/
theorem unmapped_field_falls_back_to_name :
    keyMappingLookup "Foo" = none ∧ ("Foo" : String) ≠ "Price" ∧
    ("Foo" : String) ≠ "Main Image" ∧
    projectFieldExport [("Foo", Value.str "bar")] "Foo" =
      some (Value.str "bar") ∧
    Value.str "bar" ≠ Value.str "N/A" :=
  ⟨rfl, by decide, by decide, rfl,
    fun h => absurd (Value.str.inj h) (by decide)⟩

/-- Claim C4 (amended): for a field outside the key mapping domain and
distinct from Price and Main Image, projection yields the "N/A" sentinel
provided the RawProduct does not itself contain the display name as a key
(the unmapped lookup falls back to the display name). -/
theorem project_unmapped_missing_is_na (data : RawProduct) (f : String)
    (hm : keyMappingLookup f = none) (hp : f ≠ "Price")
    (hi : f ≠ "Main Image") (hd : dictGet data f = none) :
    projectFieldExport data f = some (Value.str "N/A") := by
  rw [projectFieldExport, if_neg (by simp [hp]), if_neg (by simp [hi])]
  simp [hm, hd]

/-- Claim C4 witness: the amended claim instantiated at the field Bar and
a RawProduct without a Bar key. -/
theorem project_unmapped_missing_is_na_witness :
    keyMappingLookup "Bar" = none ∧ ("Bar" : String) ≠ "Price" ∧
    ("Bar" : String) ≠ "Main Image" ∧
    dictGet [("x", Value.null)] "Bar" = none ∧
    projectFieldExport [("x", Value.null)] "Bar" = some (Value.str "N/A") :=
  ⟨rfl, by decide, by decide, rfl,
    project_unmapped_missing_is_na [("x", Value.null)] "Bar" rfl (by decide)
      (by decide) rfl⟩

/-- Claim C5 counterexample: the cache of st.cache with
allow_output_mutation=True hands out the stored object itself, so after one
caller mutates the returned dict (here: clears it), a second call with the
same (credential, identifier) pair reads the mutated dict, not the
originally fetched one. -/
theorem cache_mutation_visible_to_later_calls :
    (let s1 := cachedFetch ⟨[], []⟩ ("key", "tcin") [("tcin", Value.str "1")]
     let s2 := writeObj s1.2 s1.1 []
     let s3 := cachedFetch s2 ("key", "tcin") [("tcin", Value.str "1")]
     readObj s3.2 s3.1) = ([] : RawProduct) ∧
    ([] : RawProduct) ≠ [("tcin", Value.str "1")] :=
  ⟨rfl, fun h => List.noConfusion h⟩

/-- Claim C5 (amended): the fetch result is memoized per (credential,
identifier) pair — a repeated call returns the same object address and
leaves the cache unchanged, performing no recomputation — but because the
cache stores and hands out the very same object, mutating the returned
RawProduct through one caller does change the value a subsequent call with
the same pair observes. -/
theorem cache_memoizes_but_aliases (s : CacheState) (key : String × String)
    (c c2 : RawProduct) (v : RawProduct)
    (hfresh : s.entries.find?
      (fun e => e.1.1 == key.1 && e.1.2 == key.2) = none) :
    cachedFetch ((cachedFetch s key c).2) key c2 =
      ((cachedFetch s key c).1, (cachedFetch s key c).2) ∧
    readObj (writeObj (cachedFetch s key c).2 (cachedFetch s key c).1 v)
      (cachedFetch s key c).1 = v := by
  have hstep : cachedFetch s key c = (s.heap.length,
      ⟨s.entries ++ [(key, s.heap.length)], s.heap ++ [c]⟩) := by
    rw [cachedFetch, hfresh]
  rw [hstep]
  constructor
  · rw [cachedFetch]
    show (match (s.entries ++ [(key, s.heap.length)]).find?
        (fun e => e.1.1 == key.1 && e.1.2 == key.2) with
      | some e => (e.2, (⟨s.entries ++ [(key, s.heap.length)],
          s.heap ++ [c]⟩ : CacheState))
      | none => ((s.heap ++ [c]).length,
          ⟨(s.entries ++ [(key, s.heap.length)]) ++
            [(key, (s.heap ++ [c]).length)],
            (s.heap ++ [c]) ++ [c2]⟩)) = _
    rw [find?_append_none _ _ _ hfresh,
      List.find?_cons_of_pos _ (by simp)]
  · show ((s.heap ++ [c]).set s.heap.length v).getD s.heap.length
      ([] : List (String × Value)) = v
    rw [set_append_length, getD_append_length]

/-- Claim C5 witness: the amended claim instantiated at the empty cache. -/
theorem cache_memoizes_but_aliases_witness :
    ((⟨[], []⟩ : CacheState).entries.find?
      (fun e => e.1.1 == ("k", "t").1 && e.1.2 == ("k", "t").2) = none) ∧
    (cachedFetch ((cachedFetch ⟨[], []⟩ ("k", "t")
        [("tcin", Value.str "1")]).2) ("k", "t") [("tcin", Value.str "1")] =
      ((cachedFetch ⟨[], []⟩ ("k", "t") [("tcin", Value.str "1")]).1,
        (cachedFetch ⟨[], []⟩ ("k", "t") [("tcin", Value.str "1")]).2) ∧
      readObj (writeObj (cachedFetch ⟨[], []⟩ ("k", "t")
          [("tcin", Value.str "1")]).2
          (cachedFetch ⟨[], []⟩ ("k", "t") [("tcin", Value.str "1")]).1 [])
        (cachedFetch ⟨[], []⟩ ("k", "t") [("tcin", Value.str "1")]).1 = []) :=
  ⟨rfl, cache_memoizes_but_aliases ⟨[], []⟩ ("k", "t")
    [("tcin", Value.str "1")] [("tcin", Value.str "1")] [] rfl⟩

/-- Claim C6 counterexample: on the non-empty RawProduct whose
buybox_winner is the number 5, with Price required, the export raises
(inherits the Price projection crash), so no JSON document is produced at
all and the round-trip property fails as universally stated. -/
theorem export_raises_on_nonmapping_buybox :
    exportButtonClick badBuyboxProduct [⟨"Price", true⟩] = none ∧
    badBuyboxProduct ≠ ([] : RawProduct) :=
  ⟨rfl, fun h => List.noConfusion h⟩

/-- Claim C6 (amended): for every non-empty RawProduct on which projecting
the required fields raises no exception (equivalently, `buildFinalData`
succeeds) and every catalog with distinct field names, the export succeeds,
its output is `json.dumps` of the projected document with 4-space
indentation, parsing that output as JSON recovers exactly the document, and
the document keys are exactly the required field names in catalog order.
The `wfItems` hypothesis says every numeric literal in the record is a
plausible Python number rendering; every record that actually arrives via
`json.loads` satisfies it. -/
theorem export_parse_roundtrip (data : RawProduct) (rows : List FieldSpec)
    (doc : List (String × Value)) (hne : data ≠ [])
    (hnd : (requiredFields rows).Nodup) (hwf : wfItems data = true)
    (hdoc : buildFinalData data (requiredFields rows) [] = some doc) :
    exportButtonClick data rows =
      some ⟨some (jsonDumps (Value.obj doc)), none, data, rows⟩ ∧
    jsonLoads (jsonDumps (Value.obj doc)) = some (Value.obj doc) ∧
    doc.map Prod.fst = requiredFields rows := by
  have hwfdoc : wfVal (Value.obj doc) = true := by
    rw [wfVal]
    refine wfItems_of_forall ?_
    intro p hp
    rcases buildFinalData_mem data (requiredFields rows) [] doc hdoc p hp with
      h0 | hproj
    · cases h0
    · exact wf_projectFieldExport hwf hproj
  refine ⟨?_, jsonLoads_dumps _ hwfdoc, ?_⟩
  · rw [exportButtonClick, isEmpty_false_of_ne_nil hne,
      if_neg Bool.false_ne_true, hdoc]
    rfl
  · have hk := buildFinalData_keys data (requiredFields rows) [] doc hnd
      (fun f _ => rfl) hdoc
    simpa using hk

/-- Claim C6 witness: the amended claim instantiated at a one-field
catalog and a RawProduct holding a tcin string. -/
theorem export_parse_roundtrip_witness :
    ([("tcin", Value.str "1")] : RawProduct) ≠ [] ∧
    (requiredFields [⟨"TCIN", true⟩]).Nodup ∧
    wfItems [("tcin", Value.str "1")] = true ∧
    buildFinalData [("tcin", Value.str "1")]
      (requiredFields [⟨"TCIN", true⟩]) [] =
      some [("TCIN", Value.str "1")] ∧
    (exportButtonClick [("tcin", Value.str "1")] [⟨"TCIN", true⟩] =
        some ⟨some (jsonDumps (Value.obj [("TCIN", Value.str "1")])), none,
          [("tcin", Value.str "1")], [⟨"TCIN", true⟩]⟩ ∧
      jsonLoads (jsonDumps (Value.obj [("TCIN", Value.str "1")])) =
        some (Value.obj [("TCIN", Value.str "1")]) ∧
      ([("TCIN", Value.str "1")] : List (String × Value)).map Prod.fst =
        requiredFields [⟨"TCIN", true⟩]) :=
  ⟨fun h => List.noConfusion h, by decide, rfl, rfl,
    export_parse_roundtrip [("tcin", Value.str "1")] [⟨"TCIN", true⟩]
      [("TCIN", Value.str "1")] (fun h => List.noConfusion h) (by decide)
      rfl rfl⟩

/-- Claim C7: pressing export while the stored RawProduct is empty emits
the no-data warning, produces no JSON output, and returns every session
field it saw unchanged — the handler body performs no state write. -/
theorem export_with_empty_data_warns (rows : List FieldSpec) :
    exportButtonClick [] rows =
      some ⟨none, some emptyExportWarning, [], rows⟩ := rfl

/-- Claim C8: pressing fetch with an empty credential emits the
missing-credential error, issues no network call (the fetch oracle is never
consulted and the result does not depend on it), and leaves the stored
record unchanged. -/
theorem empty_credential_no_fetch (tcin : String) (prior : RawProduct)
    (fetch : String → String → RawProduct) :
    sidebarFetchClick "" tcin prior fetch =
      ⟨false, some missingKeyError, none, prior⟩ := rfl

/-- Claim C9: unwrapping the simulated upstream response of the spec and
projecting TCIN, Product Title, Price and Main Image yields exactly the
expected four string values, in order. -/
theorem sample_projection_exact :
    extractProduct sampleResponse = (sampleProduct, false) ∧
    buildFinalData sampleProduct
      ["TCIN", "Product Title", "Price", "Main Image"] [] =
      some [("TCIN", Value.str "89603872"),
            ("Product Title", Value.str "Widget"),
            ("Price", Value.str "$9.99"),
            ("Main Image", Value.str "http://img/x.jpg")] := ⟨rfl, rfl⟩

/-- Claim C10: init_session_state is idempotent and never overwrites a
session key that is already present: any stored product record, credential
or field catalog survives re-initialization unchanged. -/
theorem init_session_state_preserves (s : SessionState) :
    init_session_state (init_session_state s) = init_session_state s ∧
    (∀ pd, s.product_data = some pd →
      (init_session_state s).product_data = some pd) ∧
    (∀ k, s.api_key = some k → (init_session_state s).api_key = some k) ∧
    (∀ fs, s.field_status = some fs →
      (init_session_state s).field_status = some fs) ∧
    (s.product_data.isSome = true → s.api_key.isSome = true →
      s.field_status.isSome = true → init_session_state s = s) := by
  obtain ⟨pd, ak, fs⟩ := s
  cases pd <;> cases ak <;> cases fs <;> simp [init_session_state]

/-- Claim C10 witness: a session already holding all three keys is left
unchanged by re-initialization. -/
theorem init_session_state_preserves_witness :
    ((⟨some [("tcin", Value.str "1")], some "key", some initialFieldStatus⟩ :
      SessionState).product_data.isSome = true) ∧
    init_session_state
      (⟨some [("tcin", Value.str "1")], some "key", some initialFieldStatus⟩ :
        SessionState) =
      ⟨some [("tcin", Value.str "1")], some "key", some initialFieldStatus⟩ :=
  ⟨rfl, (init_session_state_preserves
    ⟨some [("tcin", Value.str "1")], some "key",
      some initialFieldStatus⟩).2.2.2.2 rfl rfl rfl⟩

end TargetApp
